import Mathlib

/-!
# Verification of the File-Encryptor envelope pipeline

Shallow embedding of `src/main.rs` of the File-Encryptor repository.
Bytes are modelled as `Nat` (a `u8` value is a `Nat`; no claim here depends
on the `< 256` bound). File I/O and CLI parsing are stripped: the core of
`encrypt_file` is a function from plaintext bytes and password to envelope
bytes, the core of `decrypt_file` a function from envelope bytes and
password to an outcome (success, typed error, or panic).

External crates are modelled as follows:
* `bincode` 1.x `serialize`/`deserialize` for the `EncryptionMetadata`
  struct (two fixed-size `u8` arrays): fields in order, each array as its
  raw bytes with no length prefix; `deserialize` errors when the input has
  too few bytes and ignores trailing bytes (the documented behaviour of the
  top-level bincode 1.x functions, which use fixint encoding and allow
  trailing bytes).
* `pbkdf2::pbkdf2::<Hmac<Sha256>>` is implemented faithfully: SHA-256
  (FIPS 180-4), HMAC (RFC 2104), PBKDF2 (RFC 8018).
* `aes_gcm` (AES-256-GCM) is external to the repository and is modelled
  from the spec, see `aeadTag` below.
-/

namespace FileEncryptor

/-! ## Constants from src/main.rs -/

/-- `const KEY_LENGTH: usize = 32` -/
def KEY_LENGTH : Nat := 32

/-- `const SALT_LENGTH: usize = 16` -/
def SALT_LENGTH : Nat := 16

/-- `const PBKDF2_ITERATIONS: u32 = 100_000` -/
def PBKDF2_ITERATIONS : Nat := 100000

/-- `const NONCE_LENGTH: usize = 12` -/
def NONCE_LENGTH : Nat := 12

/-! ## SHA-256 (FIPS 180-4), as implemented by the `sha2` crate -/

/-- Truncation to a 32-bit word. -/
def w32 (x : Nat) : Nat := x % 4294967296

/-- Right rotation of a 32-bit word. -/
def rotr32 (n x : Nat) : Nat := w32 ((x >>> n) ||| (x <<< (32 - n)))

/-- Bitwise complement of a 32-bit word. -/
def not32 (x : Nat) : Nat := 4294967295 ^^^ x

def ch32 (x y z : Nat) : Nat := (x &&& y) ^^^ (not32 x &&& z)

def maj32 (x y z : Nat) : Nat := (x &&& y) ^^^ (x &&& z) ^^^ (y &&& z)

def bigSigma0 (x : Nat) : Nat := rotr32 2 x ^^^ rotr32 13 x ^^^ rotr32 22 x

def bigSigma1 (x : Nat) : Nat := rotr32 6 x ^^^ rotr32 11 x ^^^ rotr32 25 x

def smallSigma0 (x : Nat) : Nat := rotr32 7 x ^^^ rotr32 18 x ^^^ (x >>> 3)

def smallSigma1 (x : Nat) : Nat := rotr32 17 x ^^^ rotr32 19 x ^^^ (x >>> 10)

/-- The 64 SHA-256 round constants (FIPS 180-4 §4.2.2, written in
decimal). -/
def K256 : List Nat :=
  [1116352408, 1899447441, 3049323471, 3921009573, 961987163, 1508970993,
   2453635748, 2870763221, 3624381080, 310598401, 607225278, 1426881987,
   1925078388, 2162078206, 2614888103, 3248222580, 3835390401, 4022224774,
   264347078, 604807628, 770255983, 1249150122, 1555081692, 1996064986,
   2554220882, 2821834349, 2952996808, 3210313671, 3336571891, 3584528711,
   113926993, 338241895, 666307205, 773529912, 1294757372, 1396182291,
   1695183700, 1986661051, 2177026350, 2456956037, 2730485921, 2820302411,
   3259730800, 3345764771, 3516065817, 3600352804, 4094571909, 275423344,
   430227734, 506948616, 659060556, 883997877, 958139571, 1322822218,
   1537002063, 1747873779, 1955562222, 2024104815, 2227730452, 2361852424,
   2428436474, 2756734187, 3204031479, 3329325298]

/-- SHA-256 working state: eight 32-bit words. -/
structure Hash8 where
  a : Nat
  b : Nat
  c : Nat
  d : Nat
  e : Nat
  f : Nat
  g : Nat
  h : Nat

/-- The SHA-256 initial hash value (FIPS 180-4 §5.3.3, written in
decimal). -/
def initH : Hash8 :=
  ⟨1779033703, 3144134277, 1013904242, 2773480762,
   1359893119, 2600822924, 528734635, 1541459225⟩

/-- The SHA-256 message schedule for one 16-word block. -/
def msgW (block : List Nat) : Nat → Nat
  | i =>
    if _h : i < 16 then block.getD i 0
    else
      w32 (smallSigma1 (msgW block (i - 2)) + msgW block (i - 7) +
           smallSigma0 (msgW block (i - 15)) + msgW block (i - 16))
termination_by i => i
decreasing_by all_goals omega

/-- One SHA-256 round. -/
def sha256Round (block : List Nat) (st : Hash8) (i : Nat) : Hash8 :=
  let t1 := w32 (st.h + bigSigma1 st.e + ch32 st.e st.f st.g + K256.getD i 0 + msgW block i)
  let t2 := w32 (bigSigma0 st.a + maj32 st.a st.b st.c)
  ⟨w32 (t1 + t2), st.a, st.b, st.c, w32 (st.d + t1), st.e, st.f, st.g⟩

/-- The SHA-256 compression function on one 16-word block. -/
def sha256Compress (st : Hash8) (block : List Nat) : Hash8 :=
  let r := (List.range 64).foldl (sha256Round block) st
  ⟨w32 (r.a + st.a), w32 (r.b + st.b), w32 (r.c + st.c), w32 (r.d + st.d),
   w32 (r.e + st.e), w32 (r.f + st.f), w32 (r.g + st.g), w32 (r.h + st.h)⟩

/-- Big-endian 8-byte encoding of a 64-bit length. -/
def be64 (n : Nat) : List Nat :=
  [n >>> 56 % 256, n >>> 48 % 256, n >>> 40 % 256, n >>> 32 % 256,
   n >>> 24 % 256, n >>> 16 % 256, n >>> 8 % 256, n % 256]

/-- Big-endian 4-byte encoding of a 32-bit word. -/
def wordBytes (w : Nat) : List Nat :=
  [w >>> 24 % 256, w >>> 16 % 256, w >>> 8 % 256, w % 256]

/-- SHA-256 padding: append 0x80, zero bytes, and the 64-bit bit length. -/
def shaPad (msg : List Nat) : List Nat :=
  msg ++ [0x80] ++ List.replicate ((64 - (msg.length + 9) % 64) % 64) 0 ++
    be64 (8 * msg.length)

/-- Group a byte list into big-endian 32-bit words. -/
def bytesToWords : List Nat → List Nat
  | a :: b :: c :: d :: rest =>
      (a * 16777216 + b * 65536 + c * 256 + d) :: bytesToWords rest
  | _ => []

/-- Split a byte list into 64-byte chunks. -/
def chunks64 : List Nat → List (List Nat)
  | [] => []
  | x :: xs => ((x :: xs).take 64) :: chunks64 ((x :: xs).drop 64)
termination_by l => l.length
decreasing_by simp; omega

/-- Serialize the final SHA-256 state as 32 big-endian bytes. -/
def digestBytes (st : Hash8) : List Nat :=
  wordBytes st.a ++ wordBytes st.b ++ wordBytes st.c ++ wordBytes st.d ++
  wordBytes st.e ++ wordBytes st.f ++ wordBytes st.g ++ wordBytes st.h

/-- SHA-256 of a byte string. -/
def sha256 (msg : List Nat) : List Nat :=
  digestBytes (((chunks64 (shaPad msg)).map bytesToWords).foldl sha256Compress initH)

/-! ## HMAC-SHA-256 (RFC 2104) and PBKDF2 (RFC 8018) -/

/-- HMAC-SHA-256 with a 64-byte block size. -/
def hmacSha256 (key msg : List Nat) : List Nat :=
  let k0 := if 64 < key.length then sha256 key else key
  let k := k0 ++ List.replicate (64 - k0.length) 0
  let ipad := k.map (fun b => b ^^^ 0x36)
  let opad := k.map (fun b => b ^^^ 0x5c)
  sha256 (opad ++ sha256 (ipad ++ msg))

/-- Pointwise xor of two byte strings (length of the shorter). -/
def xorBytes (a b : List Nat) : List Nat := List.zipWith Nat.xor a b

/-- Big-endian 4-byte block index, as used by PBKDF2. -/
def be32 (n : Nat) : List Nat :=
  [n >>> 24 % 256, n >>> 16 % 256, n >>> 8 % 256, n % 256]

/-- The iterated U chain of PBKDF2: `k` further iterations beyond `u`,
accumulating the xor in `acc`. -/
def pbkdf2Iter (password : List Nat) : Nat → List Nat → List Nat → List Nat
  | 0, _, acc => acc
  | k + 1, u, acc =>
      let u2 := hmacSha256 password u
      pbkdf2Iter password k u2 (xorBytes acc u2)

/-- The PBKDF2 block function F(password, salt, c, i). -/
def pbkdf2Block (password salt : List Nat) (c i : Nat) : List Nat :=
  let u1 := hmacSha256 password (salt ++ be32 i)
  pbkdf2Iter password (c - 1) u1 u1

/-- PBKDF2 with the HMAC-SHA-256 PRF: `c` iterations, `dkLen` output
bytes, as computed by the `pbkdf2` crate into a `dkLen`-byte buffer. -/
def pbkdf2HmacSha256 (password salt : List Nat) (c dkLen : Nat) : List Nat :=
  (((List.range ((dkLen + 31) / 32)).map
      (fun i => pbkdf2Block password salt c (i + 1))).flatten).take dkLen

/-- `fn derive_key(password: &str, salt: &[u8]) -> Key<Aes256Gcm>` from
src/main.rs: PBKDF2-HMAC-SHA-256 with `PBKDF2_ITERATIONS` rounds filling a
`KEY_LENGTH`-byte buffer. The password enters as its UTF-8 bytes. -/
def derive_key (password salt : List Nat) : List Nat :=
  pbkdf2HmacSha256 password salt PBKDF2_ITERATIONS KEY_LENGTH

/-! ## Envelope metadata and its bincode serialization -/

/-- A `[u8; NONCE_LENGTH]` value: a byte list of length 12. -/
abbrev NonceBytes := {l : List Nat // l.length = NONCE_LENGTH}

/-- A `[u8; SALT_LENGTH]` value: a byte list of length 16. -/
abbrev SaltBytes := {l : List Nat // l.length = SALT_LENGTH}

/-- `struct EncryptionMetadata { nonce: [u8; NONCE_LENGTH], salt: [u8; SALT_LENGTH] }`
from src/main.rs. -/
@[ext]
structure EncryptionMetadata where
  nonce : NonceBytes
  salt : SaltBytes

/-- `bincode::serialize` of an `EncryptionMetadata`: the fields in
declaration order, each fixed-size `u8` array as its raw bytes with no
length prefix. -/
def serializeMetadata (m : EncryptionMetadata) : List Nat :=
  m.nonce.val ++ m.salt.val

/-- `bincode::deserialize::<EncryptionMetadata>`: reads 12 bytes for
`nonce` and 16 bytes for `salt`, fails when fewer than 28 bytes are
available, and (as the top-level bincode 1.x function does) ignores any
trailing bytes. -/
def deserializeMetadata (b : List Nat) : Option EncryptionMetadata :=
  if h : NONCE_LENGTH + SALT_LENGTH ≤ b.length then
    some ⟨⟨b.take NONCE_LENGTH, by simp [NONCE_LENGTH, SALT_LENGTH] at h ⊢; omega⟩,
          ⟨(b.drop NONCE_LENGTH).take SALT_LENGTH,
           by simp [NONCE_LENGTH, SALT_LENGTH] at h ⊢; omega⟩⟩
  else none

/-! ## The AEAD engine

The AES-256-GCM implementation lives in the external `aes_gcm` crate, not
under src/, so it is modelled from the spec. -/

/-- Injective encoding of a byte list into one natural number, used to
build the idealized authentication tag. -/
def encodeList : List Nat → Nat
  | [] => 0
  | b :: t => Nat.pair b (encodeList t) + 1

/-- Modelled from the spec: the 16-byte authentication tag that AES-GCM
appends to the ciphertext. The spec (§4.2) requires that the tag verifies
exactly when key, nonce and ciphertext are the ones that produced it, so
the model makes the tag determine (key, nonce, body) injectively. -/
def aeadTag (key nonce body : List Nat) : List Nat :=
  Nat.pair (encodeList key) (Nat.pair (encodeList nonce) (encodeList body)) ::
    List.replicate 15 0

/-- Modelled from the spec: `seal(key, nonce, plaintext) -> ciphertext`
of the AEAD engine (§4.2) — encrypts the plaintext and appends a 16-byte
authentication tag; it has no failure conditions. -/
def aeadEncrypt (key nonce data : List Nat) : List Nat :=
  data ++ aeadTag key nonce data

/-- Modelled from the spec: `open(key, nonce, ciphertext) -> plaintext` of
the AEAD engine (§4.2) — all-or-nothing; fails exactly when the trailing
16-byte tag does not verify against (key, nonce, body). -/
def aeadDecrypt (key nonce ct : List Nat) : Option (List Nat) :=
  if ct.length < 16 then none
  else
    let body := ct.take (ct.length - 16)
    let tag := ct.drop (ct.length - 16)
    if tag = aeadTag key nonce body then some body else none

/-! ## Error taxonomy and the Rust-level wrappers

The Rust code reports all failures through `anyhow::Error`; the spec's
error taxonomy (§7) names the kind raised at each site: a bincode
deserialization failure is a `MalformedEnvelope`, an AEAD verification
failure an `AuthenticationFailure`, a failure of the encrypt step the
"Error during encryption" case. -/

inductive CoreError where
  | malformedEnvelope : CoreError
  | authenticationFailure : CoreError
  | encryptionError : CoreError
deriving DecidableEq, Repr

/-- `fn encrypt(key, nonce, data) -> Result<Vec<u8>>` from src/main.rs:
wraps the AEAD seal, mapping a cipher error through `anyhow!`. -/
def encrypt (key : List Nat) (nonce : NonceBytes) (data : List Nat) :
    Except CoreError (List Nat) :=
  Except.ok (aeadEncrypt key nonce.val data)

/-- `fn decrypt(key, nonce, ciphertext) -> Result<Vec<u8>>` from
src/main.rs: wraps the AEAD open, mapping a cipher error through
`anyhow!`. -/
def decrypt (key : List Nat) (nonce : NonceBytes) (ciphertext : List Nat) :
    Except CoreError (List Nat) :=
  match aeadDecrypt key nonce.val ciphertext with
  | some p => Except.ok p
  | none => Except.error CoreError.authenticationFailure

/-! ## The top-level operations -/

/-- The core of `fn encrypt_file` from src/main.rs, with file I/O
stripped: the plaintext bytes come in as `plain_text_bytes`, the fresh
random salt and nonce drawn from `OsRng` come in as parameters, and the
envelope bytes that would be written to the output file come out.
Derives the key, serializes `EncryptionMetadata { nonce, salt }`,
encrypts, and returns metadata bytes followed by ciphertext. -/
def encrypt_file (plain_text_bytes password : List Nat)
    (salt : SaltBytes) (nonce : NonceBytes) : Except CoreError (List Nat) :=
  let key := derive_key password salt.val
  let metadata_bytes := serializeMetadata ⟨nonce, salt⟩
  match encrypt key nonce plain_text_bytes with
  | Except.error e => Except.error e
  | Except.ok encrypted_data => Except.ok (metadata_bytes ++ encrypted_data)

/-- Outcome of running `decrypt_file`: success with the plaintext bytes, a
typed error, or a Rust panic. -/
inductive RunResult where
  | ok : List Nat → RunResult
  | err : CoreError → RunResult
  | panicked : RunResult
deriving DecidableEq, Repr

/-- The core of `fn decrypt_file` from src/main.rs, with file I/O
stripped. The code measures the header length by serializing an
`EncryptionMetadata` built from a freshly drawn random nonce and salt
(`generate_nonce()` / `generate_salt()`), passed in here as `rndNonce` and
`rndSalt`; it then calls `split_at(metadata_length)` on the input —
which, on a Rust slice, panics when `metadata_length` exceeds the input
length — deserializes the header, re-derives the key, and decrypts. -/
def decrypt_file (encrypted_data password : List Nat)
    (rndNonce : NonceBytes) (rndSalt : SaltBytes) : RunResult :=
  let metadata_length := (serializeMetadata ⟨rndNonce, rndSalt⟩).length
  if encrypted_data.length < metadata_length then RunResult.panicked
  else
    let metadata_bytes := encrypted_data.take metadata_length
    let rest := encrypted_data.drop metadata_length
    match deserializeMetadata metadata_bytes with
    | none => RunResult.err CoreError.malformedEnvelope
    | some metadata =>
      let key := derive_key password metadata.salt.val
      match decrypt key metadata.nonce rest with
      | Except.error e => RunResult.err e
      | Except.ok decrypted_data => RunResult.ok decrypted_data

/-- The envelope bytes produced by a `Seal` run (extracting the payload of
the always-successful `encrypt_file`). -/
def sealBytes (plain_text_bytes password : List Nat)
    (salt : SaltBytes) (nonce : NonceBytes) : List Nat :=
  ((encrypt_file plain_text_bytes password salt nonce).toOption).getD []

/-- An all-zero nonce, used as a concrete sampled value. -/
def zeroNonce : NonceBytes := ⟨List.replicate 12 0, by simp [NONCE_LENGTH]⟩

/-- An all-zero salt, used as a concrete sampled value. -/
def zeroSalt : SaltBytes := ⟨List.replicate 16 0, by simp [SALT_LENGTH]⟩

/-! ## Length lemmas for the hash stack -/

theorem sha256_length (msg : List Nat) : (sha256 msg).length = 32 := by
  simp [sha256, digestBytes, wordBytes]

theorem hmacSha256_length (key msg : List Nat) :
    (hmacSha256 key msg).length = 32 := by
  simp only [hmacSha256]
  exact sha256_length _

theorem xorBytes_length (a b : List Nat) :
    (xorBytes a b).length = min a.length b.length := by
  simp [xorBytes]

theorem pbkdf2Iter_length (password : List Nat) (k : Nat) (u acc : List Nat)
    (hacc : acc.length = 32) : (pbkdf2Iter password k u acc).length = 32 := by
  induction k generalizing u acc with
  | zero => simpa [pbkdf2Iter] using hacc
  | succ k ih =>
    simp only [pbkdf2Iter]
    exact ih _ _ (by simp [xorBytes_length, hacc, hmacSha256_length])

theorem pbkdf2Block_length (password salt : List Nat) (c i : Nat) :
    (pbkdf2Block password salt c i).length = 32 := by
  simp only [pbkdf2Block]
  exact pbkdf2Iter_length _ _ _ _ (hmacSha256_length _ _)

theorem derive_key_length (password salt : List Nat) :
    (derive_key password salt).length = 32 := by
  have h32 : (32 + 31) / 32 = 1 := by norm_num
  simp [derive_key, pbkdf2HmacSha256, KEY_LENGTH, h32, List.range_succ,
    pbkdf2Block_length]

/-! ## Codec lemmas -/

theorem serializeMetadata_length (m : EncryptionMetadata) :
    (serializeMetadata m).length = 28 := by
  have hn := m.nonce.property
  have hs := m.salt.property
  simp only [NONCE_LENGTH] at hn
  simp only [SALT_LENGTH] at hs
  simp [serializeMetadata, hn, hs]

theorem deserialize_serialize (m : EncryptionMetadata) :
    deserializeMetadata (serializeMetadata m) = some m := by
  obtain ⟨⟨n, hn⟩, ⟨s, hs⟩⟩ := m
  have e1 : (n ++ s).take NONCE_LENGTH = n := List.take_left' hn
  have e2 : ((n ++ s).drop NONCE_LENGTH).take SALT_LENGTH = s := by
    rw [List.drop_left' hn, ← hs, List.take_length]
  simp only [serializeMetadata, deserializeMetadata]
  rw [dif_pos (by simp [NONCE_LENGTH, SALT_LENGTH] at hn hs ⊢; omega)]
  apply congrArg some
  apply EncryptionMetadata.ext
  · exact Subtype.ext e1
  · exact Subtype.ext e2

theorem deserializeMetadata_eq_none_iff (b : List Nat) :
    deserializeMetadata b = none ↔ b.length < 28 := by
  simp only [deserializeMetadata, NONCE_LENGTH, SALT_LENGTH]
  split
  · rename_i h
    constructor
    · intro hcontra; exact absurd hcontra (by simp)
    · intro hlt; omega
  · rename_i h
    constructor
    · intro _; omega
    · intro _; rfl

/-! ## AEAD model lemmas -/

theorem aeadTag_length (key nonce body : List Nat) :
    (aeadTag key nonce body).length = 16 := by
  simp [aeadTag]

theorem aeadEncrypt_length (key nonce data : List Nat) :
    (aeadEncrypt key nonce data).length = data.length + 16 := by
  simp [aeadEncrypt, aeadTag_length]

theorem aeadDecrypt_encrypt (key nonce data : List Nat) :
    aeadDecrypt key nonce (aeadEncrypt key nonce data) = some data := by
  have hlen := aeadEncrypt_length key nonce data
  simp only [aeadDecrypt, hlen]
  rw [if_neg (by omega)]
  have h1 : data.length + 16 - 16 = data.length := by omega
  simp only [h1, aeadEncrypt, List.take_left, List.drop_left]
  simp

theorem encodeList_injective : Function.Injective encodeList := by
  intro a b
  induction a generalizing b with
  | nil =>
    cases b with
    | nil => intro _; rfl
    | cons y u => intro h; exact absurd h.symm (by simp [encodeList])
  | cons x t ih =>
    cases b with
    | nil => intro h; exact absurd h (by simp [encodeList])
    | cons y u =>
      intro h
      have h2 : Nat.pair x (encodeList t) = Nat.pair y (encodeList u) := by
        simpa [encodeList] using h
      obtain ⟨hx, ht⟩ := Nat.pair_eq_pair.mp h2
      rw [hx, ih ht]

theorem aeadDecrypt_wrong_key (key1 key2 nonce data : List Nat)
    (hne : key1 ≠ key2) :
    aeadDecrypt key2 nonce (aeadEncrypt key1 nonce data) = none := by
  have hlen := aeadEncrypt_length key1 nonce data
  simp only [aeadDecrypt, hlen]
  rw [if_neg (by omega)]
  have h1 : data.length + 16 - 16 = data.length := by omega
  simp only [h1, aeadEncrypt, List.take_left, List.drop_left]
  rw [if_neg]
  intro hteq
  apply hne
  apply encodeList_injective
  simp only [aeadTag, List.cons.injEq] at hteq
  exact (Nat.pair_eq_pair.mp hteq.1).1

/-! ## Pipeline lemmas -/

theorem sealBytes_eq (p w : List Nat) (salt : SaltBytes) (nonce : NonceBytes) :
    sealBytes p w salt nonce =
      serializeMetadata ⟨nonce, salt⟩ ++
        aeadEncrypt (derive_key w salt.val) nonce.val p := rfl

theorem decrypt_file_of_envelope (m : EncryptionMetadata) (ct w : List Nat)
    (rn : NonceBytes) (rs : SaltBytes) :
    decrypt_file (serializeMetadata m ++ ct) w rn rs =
      match aeadDecrypt (derive_key w m.salt.val) m.nonce.val ct with
      | some d => RunResult.ok d
      | none => RunResult.err CoreError.authenticationFailure := by
  have hm : (serializeMetadata m).length = 28 := serializeMetadata_length m
  simp only [decrypt_file, serializeMetadata_length]
  rw [if_neg (by simp [hm])]
  rw [show (28 : Nat) = (serializeMetadata m).length from hm.symm,
    List.take_left, List.drop_left, deserialize_serialize]
  simp only [decrypt]
  cases haead : aeadDecrypt (derive_key w m.salt.val) m.nonce.val ct <;> simp [haead]

/-! ## The claims -/

/-- Claim C1 (code finding): on an envelope shorter than the 28-byte
header, `decrypt_file` does not fail with a `MalformedEnvelope` error as
the spec requires — the `split_at(metadata_length)` call panics. Evaluated
here at a concrete 27-byte envelope with the empty password. -/
theorem truncated_envelope_panics :
    decrypt_file (List.replicate 27 0) [] zeroNonce zeroSalt =
      RunResult.panicked := by decide

/-- Claim C2: for every byte sequence P (including the empty one), every
password W, and every sampled salt/nonce (and every randomness drawn by
the decryption side), decrypting the output of Seal(P, W) with the same
password succeeds and returns exactly P. -/
theorem round_trip_correctness (P W : List Nat) (salt : SaltBytes)
    (nonce rn : NonceBytes) (rs : SaltBytes) :
    decrypt_file (sealBytes P W salt nonce) W rn rs = RunResult.ok P := by
  rw [sealBytes_eq, decrypt_file_of_envelope ⟨nonce, salt⟩ _ W rn rs]
  simp [aeadDecrypt_encrypt]

/-- Claim C3: for every plaintext and every pair of passwords, either the
two passwords derive colliding keys (the negligible-probability case the
claim excludes) or opening a sealed envelope with the other password fails
with `AuthenticationFailure`, returning no plaintext at all. -/
theorem wrong_password_rejection (P W1 W2 : List Nat) (salt : SaltBytes)
    (nonce rn : NonceBytes) (rs : SaltBytes) :
    derive_key W1 salt.val = derive_key W2 salt.val ∨
      decrypt_file (sealBytes P W1 salt nonce) W2 rn rs =
        RunResult.err CoreError.authenticationFailure := by
  by_cases hk : derive_key W1 salt.val = derive_key W2 salt.val
  · exact Or.inl hk
  · refine Or.inr ?_
    rw [sealBytes_eq, decrypt_file_of_envelope ⟨nonce, salt⟩ _ W2 rn rs]
    rw [aeadDecrypt_wrong_key _ _ _ _ hk]

/-- Claim C4: for every nonce and salt, the encoded header has the
constant length 28, with the 12 nonce bytes at offset 0 and the 16 salt
bytes at offset 12; in the sealed envelope the ciphertext starts at
offset 28, and Open splits its input at the same fixed length 28 (its
`split_at` panics exactly below it). -/
theorem header_layout_deterministic (nonce : NonceBytes) (salt : SaltBytes)
    (P W env pw : List Nat) (rn : NonceBytes) (rs : SaltBytes) :
    (serializeMetadata ⟨nonce, salt⟩).length = 28 ∧
    (serializeMetadata ⟨nonce, salt⟩).take 12 = nonce.val ∧
    (serializeMetadata ⟨nonce, salt⟩).drop 12 = salt.val ∧
    (sealBytes P W salt nonce).drop 28 =
      aeadEncrypt (derive_key W salt.val) nonce.val P ∧
    (decrypt_file env pw rn rs = RunResult.panicked ↔ env.length < 28) := by
  refine ⟨serializeMetadata_length _, List.take_left' nonce.property,
    List.drop_left' nonce.property, ?_, ?_⟩
  · rw [sealBytes_eq,
      show (28 : Nat) = (serializeMetadata ⟨nonce, salt⟩).length from
        (serializeMetadata_length _).symm,
      List.drop_left]
  · simp only [decrypt_file, serializeMetadata_length]
    constructor
    · intro hp
      by_contra hlen
      push_neg at hlen
      rw [if_neg (by omega)] at hp
      cases hdm : deserializeMetadata (env.take 28) with
      | none =>
        rw [deserializeMetadata_eq_none_iff] at hdm
        rw [List.length_take] at hdm
        omega
      | some m =>
        cases hdec : decrypt (derive_key pw m.salt.val) m.nonce (env.drop 28) with
        | error e => simp [hdm, hdec] at hp
        | ok d => simp [hdm, hdec] at hp
    · intro hlt
      rw [if_pos hlt]

/-- Claim C5: `derive_key` is the (deterministic, total) function
PBKDF2-HMAC-SHA-256 with 100000 iterations and 32-byte output; its output
has length 32 for every password and salt, in particular for the empty
password. -/
theorem derive_key_pbkdf2_deterministic (password salt : List Nat) :
    derive_key password salt = pbkdf2HmacSha256 password salt 100000 32 ∧
    (derive_key password salt).length = 32 ∧
    (derive_key [] salt).length = 32 :=
  ⟨rfl, derive_key_length password salt, derive_key_length [] salt⟩

/-- Claim C6, counterexample: decoding a 29-byte header (one byte longer
than the fixed length) succeeds rather than failing — the bincode
deserializer ignores trailing bytes, contradicting the claim that decode
fails whenever its input is not exactly the expected fixed length. -/
theorem decode_accepts_trailing_bytes :
    (deserializeMetadata (List.replicate 29 0)).isSome = true := by decide

/-- Claim C6, amended: decode is the exact inverse of encode, and decode
fails (with the error the spec classifies as `MalformedEnvelope`) exactly
when its input is shorter than the 28-byte fixed length; on longer inputs
it succeeds, ignoring the trailing bytes. -/
theorem codec_inverse_amended (m : EncryptionMetadata) (b : List Nat) :
    deserializeMetadata (serializeMetadata m) = some m ∧
    (deserializeMetadata b = none ↔ b.length < 28) :=
  ⟨deserialize_serialize m, deserializeMetadata_eq_none_iff b⟩

/-- Claim C7: Seal returns the encoded header immediately followed by the
ciphertext, and the envelope length is 28 + n + 16 for an n-byte
plaintext. -/
theorem seal_concat_and_length (P W : List Nat) (salt : SaltBytes)
    (nonce : NonceBytes) :
    encrypt_file P W salt nonce =
      Except.ok (serializeMetadata ⟨nonce, salt⟩ ++
        aeadEncrypt (derive_key W salt.val) nonce.val P) ∧
    (sealBytes P W salt nonce).length = 28 + P.length + 16 := by
  refine ⟨rfl, ?_⟩
  rw [sealBytes_eq]
  simp only [List.length_append, serializeMetadata_length, aeadEncrypt_length]
  omega

/-- Claim C8: on every input of exactly the 28-byte header length, header
decoding succeeds unconditionally, returning the first 12 bytes as the
nonce and the next 16 as the salt; no structural validation beyond the
length exists. -/
theorem header_decode_total (b : List Nat) (h : b.length = 28) :
    ∃ m : EncryptionMetadata, deserializeMetadata b = some m ∧
      m.nonce.val = b.take 12 ∧ m.salt.val = (b.drop 12).take 16 := by
  simp only [deserializeMetadata]
  rw [dif_pos (by simp [NONCE_LENGTH, SALT_LENGTH, h])]
  exact ⟨_, rfl, rfl, rfl⟩

/-- Witness for C8 at the concrete all-zero 28-byte header. -/
theorem header_decode_total_witness :
    (List.replicate 28 0).length = 28 ∧
      ∃ m : EncryptionMetadata, deserializeMetadata (List.replicate 28 0) = some m ∧
        m.nonce.val = (List.replicate 28 0).take 12 ∧
        m.salt.val = ((List.replicate 28 0).drop 12).take 16 :=
  ⟨by decide, header_decode_total (List.replicate 28 0) (by decide)⟩

/-- Claim C9: the AEAD encrypt step never fails — `encrypt` returns a
ciphertext for every key, nonce and plaintext, so the "Error during
encryption" branch of `encrypt_file` is unreachable and `encrypt_file`
always returns an envelope. -/
theorem encrypt_step_never_fails (key : List Nat) (nonce : NonceBytes)
    (data P W : List Nat) (salt : SaltBytes) :
    encrypt key nonce data = Except.ok (aeadEncrypt key nonce.val data) ∧
    encrypt_file P W salt nonce = Except.ok (sealBytes P W salt nonce) :=
  ⟨rfl, rfl⟩

/-- Claim C10: `decrypt_file` draws a random nonce and salt only to
measure the serialized header length, so its outcome is identical for any
two draws of the random-number source. -/
theorem open_independent_of_rng (env pw : List Nat)
    (rn1 rn2 : NonceBytes) (rs1 rs2 : SaltBytes) :
    decrypt_file env pw rn1 rs1 = decrypt_file env pw rn2 rs2 := by
  simp only [decrypt_file, serializeMetadata_length]

end FileEncryptor
